import Mathlib

/-!
Verification of the IIITD-Gate-Entry-Automation frontend streaming client.

Shallow embedding of the frame queue, the WebSocket streaming channel
(`useWebSocketAlternative`), the response processor
(`processWebSocketResponse`), the canvas overlay scaling/clamping, and the
exit-log aggregation (`App.tsx`), together with theorems settling the
specification's testable properties.

Modelling conventions:
  * JavaScript numbers appearing in wire payloads and geometry are modelled
    as rationals `ℚ`; `NaN` is modelled by `Option ℚ` being `none` where a
    coercion can fail.
  * Frames (`Blob`s) are opaque and modelled by their identity (`Nat`).
  * The single-threaded event loop is modelled as a deterministic step
    function over an explicit channel state, driven by a list of events
    (queue pushes, connection open/close/error, response arrivals); a frame
    send (FileReader read + `ws.send`) is modelled atomically inside
    `processNextFrame`, with an explicit flag for whether `ws.send` throws.
-/

set_option maxHeartbeats 1000000

namespace GateEntry

/-! ### FrameQueue (`queueFrame` in `useWebSocketAlternative` /
`processResponse.ts`'s appended hook)

`MAX_QUEUE_SIZE = 5`; on push, `while (queue.length >= MAX_QUEUE_SIZE)
queue.shift();` then `queue.push(frame)`. -/

def MAX_QUEUE_SIZE : Nat := 5

/-- The `while (len >= MAX_QUEUE_SIZE) shift()` eviction loop, as structural
recursion on the queue. -/
def evictOldest : List Nat → List Nat
  | [] => []
  | f :: t => if MAX_QUEUE_SIZE ≤ (f :: t).length then evictOldest t else f :: t

/-- `queueFrame`'s effect on the queue: evict while full, then append. -/
def queuePush (q : List Nat) (f : Nat) : List Nat :=
  evictOldest q ++ [f]

theorem evictOldest_eq_drop (q : List Nat) :
    evictOldest q = q.drop (q.length - (MAX_QUEUE_SIZE - 1)) := by
  induction q with
  | nil => simp [evictOldest]
  | cons f t ih =>
    simp only [evictOldest, List.length_cons]
    by_cases h : MAX_QUEUE_SIZE ≤ t.length + 1
    · simp only [if_pos h, ih]
      have h4 : MAX_QUEUE_SIZE - 1 ≤ t.length := by omega
      have : t.length + 1 - (MAX_QUEUE_SIZE - 1) = (t.length - (MAX_QUEUE_SIZE - 1)) + 1 := by
        omega
      rw [this, List.drop_succ_cons]
    · simp only [if_neg h]
      have : t.length + 1 - (MAX_QUEUE_SIZE - 1) = 0 := by
        simp [MAX_QUEUE_SIZE] at h ⊢; omega
      rw [this, List.drop_zero]

theorem length_queuePush (q : List Nat) (f : Nat) :
    (queuePush q f).length = min (q.length + 1) MAX_QUEUE_SIZE := by
  simp only [queuePush, List.length_append, List.length_singleton,
    evictOldest_eq_drop, List.length_drop]
  simp [MAX_QUEUE_SIZE]
  omega

theorem foldl_queuePush (fs : List Nat) (q0 : List Nat)
    (hq : q0.length ≤ MAX_QUEUE_SIZE) :
    fs.foldl queuePush q0 = (q0 ++ fs).drop (q0.length + fs.length - MAX_QUEUE_SIZE) := by
  induction fs generalizing q0 with
  | nil =>
    simp only [List.foldl_nil, List.append_nil, List.length_nil, Nat.add_zero]
    have : q0.length - MAX_QUEUE_SIZE = 0 := by omega
    rw [this, List.drop_zero]
  | cons f fs ih =>
    simp only [List.foldl_cons]
    have hlen : (queuePush q0 f).length ≤ MAX_QUEUE_SIZE := by
      rw [length_queuePush]; omega
    rw [ih (queuePush q0 f) hlen, length_queuePush]
    have hd : q0.length - (MAX_QUEUE_SIZE - 1) ≤ q0.length := Nat.sub_le _ _
    have hqp : queuePush q0 f ++ fs
        = q0.drop (q0.length - (MAX_QUEUE_SIZE - 1)) ++ (f :: fs) := by
      simp [queuePush, evictOldest_eq_drop]
    have hidx : q0.length + (f :: fs).length - MAX_QUEUE_SIZE
        = (q0.length - (MAX_QUEUE_SIZE - 1))
          + (min (q0.length + 1) MAX_QUEUE_SIZE + fs.length - MAX_QUEUE_SIZE) := by
      simp only [List.length_cons]
      simp only [MAX_QUEUE_SIZE] at hq ⊢
      omega
    rw [hqp, hidx, ← List.drop_drop, List.drop_append_of_le_length hd]

/-- `processNextFrame`'s `frameQueue.shift()`: pop the oldest frame. -/
def queueShift (q : List Nat) : List Nat := q.tail

/-- C1: for every sequence of `queueFrame` pushes whose length exceeds the
capacity `MAX_QUEUE_SIZE = 5`, the final queue contents are exactly the last
5 pushed frames in push order, and the queue length never exceeds 5 after
any push or pop. -/
theorem frameQueue_keeps_last_five (q0 fs : List Nat)
    (hq : q0.length ≤ MAX_QUEUE_SIZE) (hn : MAX_QUEUE_SIZE < fs.length) :
    fs.foldl queuePush q0 = fs.drop (fs.length - MAX_QUEUE_SIZE) ∧
    (∀ q f, q.length ≤ MAX_QUEUE_SIZE → (queuePush q f).length ≤ MAX_QUEUE_SIZE) ∧
    (∀ q : List Nat, q.length ≤ MAX_QUEUE_SIZE →
      (queueShift q).length ≤ MAX_QUEUE_SIZE) := by
  refine ⟨?_, ?_, ?_⟩
  · rw [foldl_queuePush fs q0 hq]
    have hidx : q0.length + fs.length - MAX_QUEUE_SIZE
        = q0.length + (fs.length - MAX_QUEUE_SIZE) := by omega
    rw [hidx, List.drop_append]
  · intro q f hql
    rw [length_queuePush]; omega
  · intro q hql
    simp only [queueShift, List.length_tail]
    omega

/-- Witness for C1 at a concrete input: six pushes into an initially empty
queue leave exactly the last five frames. -/
theorem frameQueue_keeps_last_five_witness :
    [10, 11, 12, 13, 14, 15].foldl queuePush []
      = [10, 11, 12, 13, 14, 15].drop ([10, 11, 12, 13, 14, 15].length - MAX_QUEUE_SIZE) :=
  (frameQueue_keeps_last_five [] [10, 11, 12, 13, 14, 15] (by decide) (by decide)).1

/-! ### JSON values on the wire

Inbound service messages are parsed JSON.  `jsNumber` models JavaScript's
`Number(x)` coercion restricted to JSON values (`none` models `NaN`;
exponent/hex string forms are not modelled), `jsString` models `String(x)`
(non-integer numeral rendering approximated by the rational's print form). -/

inductive JSON where
  | str (s : String)
  | num (q : ℚ)
  | bool (b : Bool)
  | null
  | arr (elems : List JSON)
  | obj (fields : List (String × JSON))
deriving Repr

/-- Decimal digit string to a natural number; `none` if any non-digit. -/
def digitsToNat : List Char → Option Nat :=
  List.foldl
    (fun acc c =>
      match acc with
      | none => none
      | some n => if c.isDigit then some (n * 10 + (c.toNat - 48)) else none)
    (some 0)

/-- JavaScript `Number(s)` for a string, restricted to optional sign and
plain decimal notation; whitespace-only strings coerce to `0`. -/
def parseJSNumber (s : String) : Option ℚ :=
  let t := s.trim
  if t.isEmpty then some 0
  else
    let cs := t.toList
    let signAndRest : ℚ × List Char :=
      match cs with
      | '-' :: rest => (-1, rest)
      | '+' :: rest => (1, rest)
      | _ => (1, cs)
    let sign := signAndRest.1
    let body := signAndRest.2
    if body.isEmpty then none
    else
      let ip := body.takeWhile (fun c => c ≠ '.')
      let rest := body.dropWhile (fun c => c ≠ '.')
      match rest with
      | [] => (digitsToNat ip).map (fun n => sign * n)
      | _ :: frac =>
        if ip.isEmpty ∧ frac.isEmpty then none
        else
          match digitsToNat ip, digitsToNat frac with
          | some n, some f => some (sign * ((n : ℚ) + (f : ℚ) / 10 ^ frac.length))
          | _, _ => none

/-- JavaScript `Number(x)` on a JSON value; `none` models `NaN`. -/
def jsNumber : JSON → Option ℚ
  | .num q => some q
  | .bool b => some (if b then 1 else 0)
  | .null => some 0
  | .str s => parseJSNumber s
  | .arr [] => some 0
  | .arr [v] => jsNumber v
  | .arr (_ :: _ :: _) => none
  | .obj _ => none

/-- Render a rational the way JavaScript renders the number (exact only for
integers; non-integer rendering is approximated). -/
def ratToJSString (q : ℚ) : String :=
  if q.den = 1 then toString q.num else toString q

mutual

/-- JavaScript `String(x)` on a JSON value (arrays render as their elements
joined by commas, as `Array.prototype.toString` does). -/
def jsString : JSON → String
  | .str s => s
  | .num q => ratToJSString q
  | .bool b => if b then "true" else "false"
  | .null => "null"
  | .arr l => jsStringList l
  | .obj _ => "[object Object]"

def jsStringList : List JSON → String
  | [] => ""
  | [v] => jsString v
  | v :: rest => jsString v ++ "," ++ jsStringList rest

end

/-! ### ResponseProcessor (`processWebSocketResponse` in
`frontend/src/utils/processResponse.ts`)

The raw `predictions` mapping is modelled as the list of its entries in
insertion order (`Object.entries`); a missing or falsy mapping is `none`.
`confidence : Option ℚ` carries `Number(confidence)`, with `none` for
`NaN`. -/

structure ProcessedPrediction where
  trackId : String
  name : String
  confidence : Option ℚ
  x1 : ℚ
  y1 : ℚ
  x2 : ℚ
  y2 : ℚ
deriving DecidableEq, Repr

/-- The per-entry body of the `Object.entries(...).forEach` loop:
array-shape and length check, numeric coercion of the four coordinates,
box normalization; `none` when the entry is skipped. -/
def processEntry (trackId : String) (prediction : JSON) : Option ProcessedPrediction :=
  match prediction with
  | .arr (name :: confidence :: x1 :: y1 :: x2 :: y2 :: _) =>
    match jsNumber x1, jsNumber y1, jsNumber x2, jsNumber y2 with
    | some parsedX1, some parsedY1, some parsedX2, some parsedY2 =>
      some { trackId := trackId
             name := jsString name
             confidence := jsNumber confidence
             x1 := min parsedX1 parsedX2
             y1 := min parsedY1 parsedY2
             x2 := max parsedX1 parsedX2
             y2 := max parsedY1 parsedY2 }
    | _, _, _, _ => none
  | _ => none

def processWebSocketResponse (predictions : Option (List (String × JSON))) :
    List ProcessedPrediction :=
  match predictions with
  | none => []
  | some entries => entries.filterMap (fun kv => processEntry kv.1 kv.2)

theorem processEntry_some_normalized {k : String} {p : JSON}
    {r : ProcessedPrediction} (h : processEntry k p = some r) :
    r.x1 ≤ r.x2 ∧ r.y1 ≤ r.y2 := by
  unfold processEntry at h
  split at h
  · split at h
    · injection h with h'
      subst h'
      exact ⟨min_le_max, min_le_max⟩
    · exact absurd h (by simp)
  · exact absurd h (by simp)

/-- C5: every output box is normalized (`x1 ≤ x2`, `y1 ≤ y2`), and on the
input `{"predictions": {"7": ["Alice", 0.92, 50, 80, 10, 200]}}` the result
is the single record with trackId "7", x1 = 10, x2 = 50, y1 = 80, y2 = 200. -/
theorem processResponse_normalizes_boxes :
    (∀ (preds : Option (List (String × JSON))) (r : ProcessedPrediction),
        r ∈ processWebSocketResponse preds → r.x1 ≤ r.x2 ∧ r.y1 ≤ r.y2) ∧
    processWebSocketResponse (some [("7", JSON.arr [JSON.str "Alice",
        JSON.num (92/100), JSON.num 50, JSON.num 80, JSON.num 10, JSON.num 200])])
      = [{ trackId := "7", name := "Alice", confidence := some (92/100),
           x1 := 10, y1 := 80, x2 := 50, y2 := 200 }] := by
  constructor
  · intro preds r hr
    match preds with
    | none => simp [processWebSocketResponse] at hr
    | some entries =>
      simp only [processWebSocketResponse, List.mem_filterMap] at hr
      obtain ⟨kv, _, hkv⟩ := hr
      exact processEntry_some_normalized hkv
  · simp only [processWebSocketResponse, List.filterMap_cons, List.filterMap_nil,
      processEntry, jsNumber, jsString]
    norm_num

/-- Witness for C5: the membership fact instantiated at the spec's concrete
payload. -/
theorem processResponse_normalizes_boxes_witness :
    ({ trackId := "7", name := "Alice", confidence := some (92/100),
       x1 := 10, y1 := 80, x2 := 50, y2 := 200 } : ProcessedPrediction).x1
      ≤ ({ trackId := "7", name := "Alice", confidence := some (92/100),
           x1 := 10, y1 := 80, x2 := 50, y2 := 200 } : ProcessedPrediction).x2 :=
  (processResponse_normalizes_boxes.1
    (some [("7", JSON.arr [JSON.str "Alice", JSON.num (92/100), JSON.num 50,
      JSON.num 80, JSON.num 10, JSON.num 200])]) _
    (by rw [processResponse_normalizes_boxes.2]; exact List.mem_singleton_self _)).1

theorem processEntry_none_of_invalid {k : String} {e : JSON}
    (h : (∀ l, e ≠ JSON.arr l) ∨ ∃ l, e = JSON.arr l ∧ l.length < 6) :
    processEntry k e = none := by
  rcases h with h | ⟨l, rfl, hlen⟩
  · cases e with
    | arr l => exact absurd rfl (h l)
    | str s => rfl
    | num q => rfl
    | bool b => rfl
    | null => rfl
    | obj f => rfl
  · rcases l with _ | ⟨a0, _ | ⟨a1, _ | ⟨a2, _ | ⟨a3, _ | ⟨a4, _ | ⟨a5, rest⟩⟩⟩⟩⟩⟩
    · rfl
    · rfl
    · rfl
    · rfl
    · rfl
    · rfl
    · simp only [List.length_cons] at hlen
      omega

/-- C6: the processor is a total function of its input; an entry that is not
an array, or is an array shorter than 6, produces no record while the other
entries of the payload are still produced; a missing/falsy `predictions`
mapping yields the empty result. -/
theorem processResponse_isolates_invalid_entries :
    (∀ (l1 l2 : List (String × JSON)) (k : String) (e : JSON),
        ((∀ l, e ≠ JSON.arr l) ∨ ∃ l, e = JSON.arr l ∧ l.length < 6) →
        processWebSocketResponse (some (l1 ++ (k, e) :: l2))
          = processWebSocketResponse (some l1) ++ processWebSocketResponse (some l2)) ∧
    processWebSocketResponse none = [] := by
  constructor
  · intro l1 l2 k e he
    have hnone : (fun kv : String × JSON => processEntry kv.1 kv.2) (k, e) = none :=
      processEntry_none_of_invalid he
    simp only [processWebSocketResponse, List.filterMap_append, List.filterMap_cons, hnone]
  · rfl

/-- Witness for C6: a length-4 entry between two valid entries is dropped
and the two valid records survive. -/
theorem processResponse_isolates_invalid_entries_witness :
    processWebSocketResponse (some ([("1", JSON.arr [JSON.str "A", JSON.num 1,
        JSON.num 0, JSON.num 0, JSON.num 4, JSON.num 4])]
      ++ ("2", JSON.arr [JSON.str "B", JSON.num 1, JSON.num 2, JSON.num 3])
      :: [("3", JSON.arr [JSON.str "C", JSON.num 1, JSON.num 5, JSON.num 5,
        JSON.num 9, JSON.num 9])]))
      = processWebSocketResponse (some [("1", JSON.arr [JSON.str "A", JSON.num 1,
          JSON.num 0, JSON.num 0, JSON.num 4, JSON.num 4])])
        ++ processWebSocketResponse (some [("3", JSON.arr [JSON.str "C", JSON.num 1,
          JSON.num 5, JSON.num 5, JSON.num 9, JSON.num 9])]) :=
  processResponse_isolates_invalid_entries.1 _ _ "2"
    (JSON.arr [JSON.str "B", JSON.num 1, JSON.num 2, JSON.num 3])
    (Or.inr ⟨_, rfl, by simp⟩)

/-- C9: only the four coordinate fields are validated.  An array entry of
length ≥ 6 whose four coordinates coerce produces a record carrying
`String(name)` and `Number(confidence)` (possibly `NaN`, i.e. `none`);
for length ≥ 6 the entry is rejected iff some coordinate fails numeric
coercion; shorter arrays and non-arrays are always rejected. -/
theorem processEntry_validates_only_coordinates :
    (∀ (k : String) (name conf x1 y1 x2 y2 : JSON) (rest : List JSON) (a b c d : ℚ),
        jsNumber x1 = some a → jsNumber y1 = some b →
        jsNumber x2 = some c → jsNumber y2 = some d →
        processEntry k (JSON.arr (name :: conf :: x1 :: y1 :: x2 :: y2 :: rest))
          = some { trackId := k, name := jsString name, confidence := jsNumber conf,
                   x1 := min a c, y1 := min b d, x2 := max a c, y2 := max b d }) ∧
    (∀ (k : String) (l : List JSON), 6 ≤ l.length →
        (processEntry k (JSON.arr l) = none ↔
          (jsNumber (l.getD 2 JSON.null) = none ∨ jsNumber (l.getD 3 JSON.null) = none ∨
           jsNumber (l.getD 4 JSON.null) = none ∨ jsNumber (l.getD 5 JSON.null) = none))) ∧
    (∀ (k : String) (l : List JSON), l.length < 6 →
        processEntry k (JSON.arr l) = none) ∧
    (∀ (k : String) (e : JSON), (∀ l, e ≠ JSON.arr l) →
        processEntry k e = none) := by
  refine ⟨?_, ?_, ?_, ?_⟩
  · intro k name conf x1 y1 x2 y2 rest a b c d h1 h2 h3 h4
    simp only [processEntry, h1, h2, h3, h4]
  · intro k l hl
    rcases l with _ | ⟨a0, _ | ⟨a1, _ | ⟨a2, _ | ⟨a3, _ | ⟨a4, _ | ⟨a5, rest⟩⟩⟩⟩⟩⟩ <;>
      simp only [List.length_cons, List.length_nil] at hl
    · omega
    · omega
    · omega
    · omega
    · omega
    · omega
    · simp only [List.getD_cons_succ, List.getD_cons_zero]
      cases h2 : jsNumber a2 <;> cases h3 : jsNumber a3 <;>
        cases h4 : jsNumber a4 <;> cases h5 : jsNumber a5 <;>
        simp [processEntry, h2, h3, h4, h5]
  · intro k l hl
    exact processEntry_none_of_invalid (Or.inr ⟨l, rfl, hl⟩)
  · intro k e he
    exact processEntry_none_of_invalid (Or.inl he)

/-- Witness for C9: a non-string name (number 5) and a non-coercible
confidence (string `"high"`) still produce a record, with `name = "5"` and
`confidence = none` (NaN). -/
theorem processEntry_validates_only_coordinates_witness :
    processEntry "3" (JSON.arr [JSON.num 5, JSON.str "high", JSON.num 1,
        JSON.num 2, JSON.num 3, JSON.num 4])
      = some { trackId := "3", name := jsString (JSON.num 5),
               confidence := jsNumber (JSON.str "high"),
               x1 := min 1 3, y1 := min 2 4, x2 := max 1 3, y2 := max 2 4 } :=
  processEntry_validates_only_coordinates.1 "3" (JSON.num 5) (JSON.str "high")
    (JSON.num 1) (JSON.num 2) (JSON.num 3) (JSON.num 4) [] 1 2 3 4 rfl rfl rfl rfl

/-! ### StreamingChannel (`useWebSocketAlternative` in `src/unnamed/part_000`)

The single-threaded event loop is modelled as a deterministic step function
over an explicit state.  `processing` is `processingRef.current`;
`isConnected` is the `isConnected` React state; `wsOpen` models
`wsRef.current.readyState === WebSocket.OPEN`; `inflight` is a ghost
counter of sends made and not yet answered on the current connection;
`attempts` is `connectionAttempts.current`.  A frame send (the FileReader
read followed by `ws.send`) is modelled atomically inside
`processNextFrame`; the `sendOk` flag models whether `ws.send` throws
(caught by the handler, which then clears `processing`). -/

structure ChannelState where
  isConnected : Bool
  wsOpen : Bool
  processing : Bool
  queue : List Nat
  inflight : Nat
  attempts : Nat
  lastResponse : Option Nat
deriving DecidableEq, Repr

/-- `processNextFrame`: guarded by connection state, the `processing` flag,
queue non-emptiness and socket readiness; on the effective path it sets
`processing`, pops the oldest frame and sends it (`inflight` grows), except
that a throwing `ws.send` clears `processing` again. -/
def processNextFrame (sendOk : Bool) (s : ChannelState) : ChannelState :=
  if !s.isConnected || s.processing || s.queue.isEmpty || !s.wsOpen then s
  else
    let s1 := { s with processing := true, queue := s.queue.tail }
    if sendOk then { s1 with inflight := s1.inflight + 1 }
    else { s1 with processing := false }

/-- Events driving the channel: a `queueFrame` call, the `connect()` entry
(attempt counter increment, fresh socket not yet open), the socket's
`onopen` / `onclose` / `onerror` handlers, and `onmessage` with a flag for
whether the body decoded as JSON. -/
inductive ChannelEvent where
  | queueFrame (f : Nat) (sendOk : Bool)
  | connectStart
  | connOpen (sendOk : Bool)
  | connClose
  | connError
  | message (decodeOk : Bool) (payload : Nat) (sendOk : Bool)
deriving DecidableEq, Repr

/-- One event-loop turn.  `connClose` and `connError` kill the connection
(`onerror` always precedes the close of a failed socket, so no send can
happen on it afterwards), voiding any unacknowledged send. -/
def channelStep (e : ChannelEvent) (s : ChannelState) : ChannelState :=
  match e with
  | .queueFrame f sendOk =>
    let s1 := { s with queue := queuePush s.queue f }
    if !s1.processing && s1.isConnected then processNextFrame sendOk s1 else s1
  | .connectStart => { s with attempts := s.attempts + 1, wsOpen := false }
  | .connOpen sendOk =>
    processNextFrame sendOk
      { s with isConnected := true, wsOpen := true, attempts := 0 }
  | .connClose =>
    { s with isConnected := false, wsOpen := false, processing := false, inflight := 0 }
  | .connError => { s with processing := false, wsOpen := false, inflight := 0 }
  | .message decodeOk payload sendOk =>
    let s1 := { s with processing := false, inflight := s.inflight - 1 }
    if decodeOk then processNextFrame sendOk { s1 with lastResponse := some payload }
    else s1

def initChannelState : ChannelState :=
  { isConnected := false, wsOpen := false, processing := false, queue := [],
    inflight := 0, attempts := 0, lastResponse := none }

def channelRun (es : List ChannelEvent) : ChannelState :=
  es.foldl (fun s e => channelStep e s) initChannelState

/-- The inductive invariant behind the single-in-flight discipline. -/
def ChannelInv (s : ChannelState) : Prop :=
  s.inflight ≤ 1 ∧ (s.inflight = 1 → s.processing = true)

theorem processNextFrame_inv {s : ChannelState} (h : ChannelInv s) (sendOk : Bool) :
    ChannelInv (processNextFrame sendOk s) := by
  obtain ⟨hle, hone⟩ := h
  unfold processNextFrame
  split
  · exact ⟨hle, hone⟩
  · rename_i hguard
    have hproc : s.processing = false := by
      cases hp : s.processing
      · rfl
      · exact absurd (by simp [hp]) hguard
    have hz : s.inflight = 0 := by
      rcases Nat.lt_or_ge s.inflight 1 with h0 | h0
      · omega
      · have h1 : s.inflight = 1 := by omega
        rw [hone h1] at hproc
        cases hproc
    split
    · refine ⟨?_, fun _ => rfl⟩
      show s.inflight + 1 ≤ 1
      omega
    · refine ⟨?_, fun h' => ?_⟩
      · show s.inflight ≤ 1
        omega
      · exact absurd (show s.inflight = 1 from h') (by omega)

theorem channelStep_inv {s : ChannelState} (h : ChannelInv s) (e : ChannelEvent) :
    ChannelInv (channelStep e s) := by
  obtain ⟨hle, hone⟩ := h
  cases e with
  | queueFrame f sendOk =>
    simp only [channelStep]
    split
    · refine processNextFrame_inv ?_ sendOk
      exact ⟨hle, hone⟩
    · exact ⟨hle, hone⟩
  | connectStart => exact ⟨hle, hone⟩
  | connOpen sendOk =>
    refine processNextFrame_inv ?_ sendOk
    exact ⟨hle, hone⟩
  | connClose =>
    exact ⟨Nat.zero_le 1, fun h' => absurd (show (0 : Nat) = 1 from h') (by omega)⟩
  | connError =>
    exact ⟨Nat.zero_le 1, fun h' => absurd (show (0 : Nat) = 1 from h') (by omega)⟩
  | message decodeOk payload sendOk =>
    simp only [channelStep]
    split
    · refine processNextFrame_inv ?_ sendOk
      refine ⟨?_, fun h' => ?_⟩
      · show s.inflight - 1 ≤ 1
        omega
      · exact absurd (show s.inflight - 1 = 1 from h') (by omega)
    · refine ⟨?_, fun h' => ?_⟩
      · show s.inflight - 1 ≤ 1
        omega
      · exact absurd (show s.inflight - 1 = 1 from h') (by omega)

/-- C2: for every interleaving of `queueFrame` calls, connection
open/close/error events and response arrivals, at most one send is ever
unacknowledged, and a state holding an unacknowledged send still has its
`processing` flag set (the flag is cleared only by a response, a send
failure, or a connection close/error). -/
theorem channel_single_inflight (es : List ChannelEvent) :
    (channelRun es).inflight ≤ 1 ∧
    ((channelRun es).inflight = 1 → (channelRun es).processing = true) := by
  have : ∀ s0, ChannelInv s0 → ChannelInv (es.foldl (fun s e => channelStep e s) s0) := by
    induction es with
    | nil => intro s0 h; exact h
    | cons e es ih =>
      intro s0 h
      exact ih _ (channelStep_inv h e)
  exact this initChannelState
    ⟨Nat.zero_le 1, fun h' => absurd (show (0 : Nat) = 1 from h') (by omega)⟩

/-- A connected state with a frame queued and a send outstanding, as reached
just before a response arrives. -/
def respondingState : ChannelState :=
  { isConnected := true, wsOpen := true, processing := true, queue := [7],
    inflight := 1, attempts := 0, lastResponse := none }

/-- C3 counterexample: in `onmessage`, `processNextFrame()` is called only
in the success branch of the `try`; after a decode failure the queued frame
stays queued (no send is initiated), while after a successful decode it is
popped and sent.  The claim's "still attempts the next send immediately,
exactly as it does after a successfully decoded response" is false. -/
theorem message_decode_failure_skips_next_send :
    (channelStep (ChannelEvent.message false 42 true) respondingState).queue = [7] ∧
    (channelStep (ChannelEvent.message false 42 true) respondingState).inflight = 0 ∧
    (channelStep (ChannelEvent.message true 42 true) respondingState).queue = [] ∧
    (channelStep (ChannelEvent.message true 42 true) respondingState).inflight = 1 := by
  refine ⟨rfl, rfl, ?_, ?_⟩ <;> rfl

/-- C3 (amended): a decode failure is caught and treated as a no-op for the
response state: `lastResponse` is unchanged, the pending `processing` flag
is cleared, the unacknowledged send is accounted for — but, unlike the
success path, no next send is attempted from the failure handler (the queue
is untouched; the next send happens only on a later `queueFrame` or
connection-open trigger). -/
theorem message_decode_failure_is_noop (s : ChannelState) (p : Nat) (sendOk : Bool) :
    (channelStep (ChannelEvent.message false p sendOk) s).processing = false ∧
    (channelStep (ChannelEvent.message false p sendOk) s).lastResponse = s.lastResponse ∧
    (channelStep (ChannelEvent.message false p sendOk) s).queue = s.queue ∧
    (channelStep (ChannelEvent.message false p sendOk) s).inflight = s.inflight - 1 :=
  ⟨rfl, rfl, rfl, rfl⟩

/-- The reconnect delay computed in the `onclose` handler:
`Math.min(2000 * Math.pow(1.5, Math.min(connectionAttempts.current, 10)), 30000)`. -/
def reconnectDelay (attempts : Nat) : ℚ :=
  min (2000 * (3 / 2 : ℚ) ^ (min attempts 10)) 30000

/-- C4: the reconnect delay is monotonically non-decreasing in the attempt
count, never exceeds 30000 ms, equals the base 2000 ms at zero attempts;
`onopen` resets the attempt counter to zero and `onclose` reads it
unchanged, so the delay computed after a successful connection closes is
the base value. -/
theorem reconnectDelay_monotone_capped :
    (∀ m n : Nat, m ≤ n → reconnectDelay m ≤ reconnectDelay n) ∧
    (∀ n : Nat, reconnectDelay n ≤ 30000) ∧
    reconnectDelay 0 = 2000 ∧
    (∀ (s : ChannelState) (sendOk : Bool),
        (channelStep (ChannelEvent.connOpen sendOk) s).attempts = 0) ∧
    (∀ s : ChannelState, (channelStep ChannelEvent.connClose s).attempts = s.attempts) ∧
    (∀ s : ChannelState, (channelStep ChannelEvent.connectStart s).attempts = s.attempts + 1) := by
  refine ⟨?_, ?_, ?_, ?_, ?_, ?_⟩
  · intro m n hmn
    unfold reconnectDelay
    have h32 : (1 : ℚ) ≤ 3 / 2 := by norm_num
    have hpow : (3 / 2 : ℚ) ^ (min m 10) ≤ (3 / 2 : ℚ) ^ (min n 10) :=
      pow_le_pow_right₀ h32 (min_le_min hmn (le_refl 10))
    exact min_le_min (by linarith) (le_refl _)
  · intro n
    exact min_le_right _ _
  · norm_num [reconnectDelay]
  · intro s sendOk
    show (processNextFrame sendOk _).attempts = 0
    unfold processNextFrame
    split
    · rfl
    · split <;> rfl
  · intro s
    rfl
  · intro s
    rfl

/-- Witness for C4: the delay at attempt 3 is at most the delay at
attempt 5. -/
theorem reconnectDelay_monotone_capped_witness :
    reconnectDelay 3 ≤ reconnectDelay 5 :=
  reconnectDelay_monotone_capped.1 3 5 (by norm_num)

/-! ### OverlayRenderer (`CanvasOverlay.tsx`)

`updateCanvasDimensions` computes per-axis scale factors
`rect.width / videoWidth`, `rect.height / videoHeight`; the draw effect
scales each prediction's coordinates, clamps them into the canvas, and
enforces a 5-pixel minimum box size. -/

/-- Per-axis scale factors: displayed size over intrinsic size. -/
def scaleFactors (dispW dispH intW intH : ℚ) : ℚ × ℚ :=
  (dispW / intW, dispH / intH)

structure Box where
  x1 : ℚ
  y1 : ℚ
  x2 : ℚ
  y2 : ℚ
deriving DecidableEq, Repr

/-- The `scaledCoords` object of the draw effect (before clamping). -/
def scaleCoords (sx sy : ℚ) (b : Box) : Box :=
  { x1 := b.x1 * sx, y1 := b.y1 * sy, x2 := b.x2 * sx, y2 := b.y2 * sy }

/-- `Math.max(0, Math.min(dim, v))`. -/
def clampCoord (dim v : ℚ) : ℚ := max 0 (min dim v)

structure DrawnBox where
  x1 : ℚ
  y1 : ℚ
  w : ℚ
  h : ℚ
deriving DecidableEq, Repr

/-- The full per-prediction geometry of the draw effect: scale, clamp into
the canvas, then `Math.max(5, ...)` on width and height. -/
def drawBox (sx sy cw ch : ℚ) (b : Box) : DrawnBox :=
  let s := scaleCoords sx sy b
  let x1 := clampCoord cw s.x1
  let y1 := clampCoord ch s.y1
  let x2 := clampCoord cw s.x2
  let y2 := clampCoord ch s.y2
  { x1 := x1, y1 := y1, w := max 5 (x2 - x1), h := max 5 (y2 - y1) }

/-- C8: each coordinate is multiplied by its per-axis scale factor and
clamped into `[0, surface dimension]`, the drawn width/height are at least
the 5-pixel floor, and on intrinsic 1280×720, displayed 640×360, box
(100,100,200,200), the scaled box before clamping is (50,50,100,100). -/
theorem overlay_scales_clamps_floors :
    (∀ (dim v : ℚ), 0 ≤ dim → 0 ≤ clampCoord dim v ∧ clampCoord dim v ≤ dim) ∧
    (∀ (sx sy cw ch : ℚ) (b : Box),
        5 ≤ (drawBox sx sy cw ch b).w ∧ 5 ≤ (drawBox sx sy cw ch b).h) ∧
    scaleFactors 640 360 1280 720 = (1 / 2, 1 / 2) ∧
    scaleCoords (1 / 2) (1 / 2) { x1 := 100, y1 := 100, x2 := 200, y2 := 200 }
      = { x1 := 50, y1 := 50, x2 := 100, y2 := 100 } := by
  refine ⟨?_, ?_, ?_, ?_⟩
  · intro dim v hdim
    refine ⟨le_max_left 0 _, ?_⟩
    exact max_le hdim (min_le_left dim v)
  · intro sx sy cw ch b
    exact ⟨le_max_left 5 _, le_max_left 5 _⟩
  · unfold scaleFactors
    norm_num
  · unfold scaleCoords
    norm_num

/-- Witness for C8: clamping the spec's scaled box into the displayed
640×360 surface keeps the x-coordinate within bounds. -/
theorem overlay_scales_clamps_floors_witness :
    0 ≤ clampCoord 640 50 ∧ clampCoord 640 50 ≤ 640 :=
  overlay_scales_clamps_floors.1 640 50 (by norm_num)

/-! ### ExitEventAggregator (`App.tsx`)

Push path: the `lastResponse` effect's `setExitLog` updater; pull path:
`fetchAllExits`' updater.  Timestamps are modelled by their epoch value
(`sortTime`, a `Nat`) with the display rendering carried alongside. -/

structure ExitLogEntry where
  names : List String
  timestamp : String
  sortTime : Nat
deriving DecidableEq, Repr

/-- JavaScript `Array.prototype.sort()` on a string array (default
lexicographic comparator; stable). -/
def sortJS (l : List String) : List String := l.insertionSort (· ≤ ·)

/-- `entry.names.sort().join(',') + '-' + entry.sortTime`, the dedup key. -/
def entryKey (names : List String) (sortTime : Nat) : String :=
  String.intercalate "," (sortJS names) ++ "-" ++ toString sortTime

/-- The `setExitLog` updater of the `lastResponse` effect: the incoming
`exit_ids` array is sorted in place while building the key (`newEntryId`,
which is `entryKey exit_ids sortTime`); a key already present leaves the
log unchanged; otherwise the entry (carrying the sorted array as its
`names`) is prepended and only the first 20 entries kept. -/
def pushExit (exit_ids : List String) (sortTime : Nat) (timestamp : String)
    (prevLog : List ExitLogEntry) : List ExitLogEntry :=
  if entryKey exit_ids sortTime ∈ prevLog.map (fun e => entryKey e.names e.sortTime)
  then prevLog
  else ({ names := sortJS exit_ids, timestamp := timestamp, sortTime := sortTime }
    :: prevLog).take 20

/-- One `(name, timestamp)` pair from `GET /get_all_exits`, with the
timestamp converted to its epoch value and locale display string. -/
structure PulledExit where
  name : String
  sortTime : Nat
  displayTime : String
deriving DecidableEq, Repr

/-- The `data.exits.forEach` body of `fetchAllExits`: skip a pair whose key
(`[name].sort().join(',') + '-' + sortTime`, i.e.
`entryKey [name] sortTime`) is already known, else record the key and
append an entry. -/
def fetchStep (acc : List String × List ExitLogEntry) (x : PulledExit) :
    List String × List ExitLogEntry :=
  if entryKey [x.name] x.sortTime ∈ acc.1 then acc
  else (entryKey [x.name] x.sortTime :: acc.1,
    acc.2 ++ [{ names := [x.name], timestamp := x.displayTime, sortTime := x.sortTime }])

/-- `fetchAllExits`' `setExitLog` updater: dedupe against the existing log
and within the batch, prepend accepted entries in feed order, keep the
first 50. -/
def fetchAllExits (exits : List PulledExit) (prevLog : List ExitLogEntry) :
    List ExitLogEntry :=
  ((exits.foldl fetchStep (prevLog.map (fun e => entryKey e.names e.sortTime), [])).2
    ++ prevLog).take 50

theorem sorted_drop_le_take {l : List ExitLogEntry} {n : Nat}
    (h : List.Sorted (fun a b => b.sortTime ≤ a.sortTime) l) :
    ∀ a ∈ l.drop n, ∀ b ∈ l.take n, a.sortTime ≤ b.sortTime := by
  intro a ha b hb
  rw [← List.take_append_drop n l] at h
  exact (List.pairwise_append.mp h).2.2 b hb a ha

/-- The entry the push path constructs (names are the in-place-sorted ids). -/
def pushedEntry (ids : List String) (t : Nat) (ts : String) : ExitLogEntry :=
  { names := sortJS ids, timestamp := ts, sortTime := t }

theorem fetchStep_idem (acc : List String × List ExitLogEntry) (x : PulledExit) :
    fetchStep (fetchStep acc x) x = fetchStep acc x := by
  unfold fetchStep
  split
  · rename_i hmem
    simp only [if_pos hmem]
  · exact if_pos (List.mem_cons_self _ _)

/-- C7: a pushed exit whose sorted-name-set and epoch value match an entry
already in the log is discarded; otherwise the log becomes the new entry
prepended with only the first 20 kept, so (for a newest-first log) the
evicted entries are the oldest; the pull path likewise discards a pair
whose key is already present, collapses duplicate pairs inside one batch,
and caps the history at 50. -/
theorem exitLog_dedup_and_caps :
    (∀ (ids : List String) (t : Nat) (ts : String) (prev : List ExitLogEntry)
        (e : ExitLogEntry), e ∈ prev → sortJS e.names = sortJS ids → e.sortTime = t →
        pushExit ids t ts prev = prev) ∧
    (∀ (ids : List String) (t : Nat) (ts : String) (prev : List ExitLogEntry),
        pushExit ids t ts prev = prev ∨
        pushExit ids t ts prev = (pushedEntry ids t ts :: prev).take 20) ∧
    (∀ (ids : List String) (t : Nat) (ts : String) (prev : List ExitLogEntry),
        prev.length ≤ 20 → (pushExit ids t ts prev).length ≤ 20) ∧
    (∀ (ids : List String) (t : Nat) (ts : String) (prev : List ExitLogEntry),
        entryKey ids t ∉ prev.map (fun e => entryKey e.names e.sortTime) →
        List.Sorted (fun a b => b.sortTime ≤ a.sortTime) (pushedEntry ids t ts :: prev) →
        ∀ a ∈ (pushedEntry ids t ts :: prev).drop 20,
        ∀ b ∈ pushExit ids t ts prev, a.sortTime ≤ b.sortTime) ∧
    (∀ (x : PulledExit) (prev : List ExitLogEntry),
        entryKey [x.name] x.sortTime
          ∈ prev.map (fun e => entryKey e.names e.sortTime) →
        fetchAllExits [x] prev = prev.take 50) ∧
    (∀ (x : PulledExit) (rest : List PulledExit) (prev : List ExitLogEntry),
        fetchAllExits (x :: x :: rest) prev = fetchAllExits (x :: rest) prev) ∧
    (∀ (exits : List PulledExit) (prev : List ExitLogEntry),
        (fetchAllExits exits prev).length ≤ 50) := by
  refine ⟨?_, ?_, ?_, ?_, ?_, ?_, ?_⟩
  · intro ids t ts prev e he hnames htime
    have hkey : entryKey e.names e.sortTime = entryKey ids t := by
      unfold entryKey
      rw [hnames, htime]
    have hmem : entryKey ids t ∈ prev.map (fun e => entryKey e.names e.sortTime) := by
      rw [← hkey]
      exact List.mem_map_of_mem _ he
    unfold pushExit
    simp only [if_pos hmem]
  · intro ids t ts prev
    unfold pushExit
    split
    · exact Or.inl rfl
    · exact Or.inr rfl
  · intro ids t ts prev hlen
    unfold pushExit
    split
    · exact hlen
    · exact List.length_take_le 20 _
  · intro ids t ts prev hnew hsorted a ha b hb
    have heq : pushExit ids t ts prev = (pushedEntry ids t ts :: prev).take 20 := by
      unfold pushExit
      simp only [if_neg hnew]
      rfl
    rw [heq] at hb
    exact sorted_drop_le_take hsorted a ha b hb
  · intro x prev hmem
    unfold fetchAllExits fetchStep
    simp only [List.foldl_cons, List.foldl_nil]
    simp only [if_pos hmem, List.nil_append]
  · intro x rest prev
    unfold fetchAllExits
    simp only [List.foldl_cons, fetchStep_idem]
  · intro exits prev
    exact List.length_take_le 50 _

/-- Witness for C7: pushing names and epoch matching an entry already in
the log leaves the log unchanged. -/
theorem exitLog_dedup_and_caps_witness :
    pushExit ["alice"] 1000 "t"
      [{ names := ["alice"], timestamp := "t", sortTime := 1000 }]
      = [{ names := ["alice"], timestamp := "t", sortTime := 1000 }] :=
  exitLog_dedup_and_caps.1 ["alice"] 1000 "t"
    [{ names := ["alice"], timestamp := "t", sortTime := 1000 }]
    { names := ["alice"], timestamp := "t", sortTime := 1000 }
    (List.mem_singleton_self _) rfl rfl

/-- C10: an entry created by the push path stores the incoming `exit_ids`
sorted (the in-place `sort()` used to build the key is also the entry's
`names`): the new head entry's names are exactly `sortJS exit_ids`, which
is a sorted permutation of the delivered ids. -/
theorem pushExit_stores_sorted_names (ids : List String) (t : Nat) (ts : String)
    (prev : List ExitLogEntry)
    (hnew : entryKey ids t ∉ prev.map (fun e => entryKey e.names e.sortTime))
    (_hne : ids ≠ []) :
    ∃ e, (pushExit ids t ts prev).head? = some e ∧
      e.names = sortJS ids ∧ e.names.Sorted (· ≤ ·) ∧ e.names.Perm ids := by
  refine ⟨{ names := sortJS ids, timestamp := ts, sortTime := t }, ?_, rfl, ?_, ?_⟩
  · unfold pushExit
    rw [if_neg hnew]
    rfl
  · exact List.sorted_insertionSort _ ids
  · exact List.perm_insertionSort _ ids

/-- Witness for C10: ids delivered as `["bob", "alice"]` are stored as
`["alice", "bob"]`. -/
theorem pushExit_stores_sorted_names_witness :
    ∃ e, (pushExit ["bob", "alice"] 1000 "t" []).head? = some e ∧
      e.names = sortJS ["bob", "alice"] ∧ e.names.Sorted (· ≤ ·) ∧
      e.names.Perm ["bob", "alice"] :=
  pushExit_stores_sorted_names ["bob", "alice"] 1000 "t" []
    (by simp) (by simp)

end GateEntry
